import Mathlib

/-!
Verification development for the MyExpenseTracker repository.

The TypeScript sources are shallowly embedded:
- amounts (JS numbers) are modelled as exact rationals;
- a calendar date string `YYYY-MM-DD` parsed by `new Date(s + 'T00:00:00')`
  is modelled as a year/month/day triple with month 1-based, ordered
  lexicographically (which is the order of the resulting timestamps);
- `uuidv4()` is modelled by an arbitrary supply `fresh : Nat → String`,
  indexed by the number of fresh ids handed out so far;
- `JSON.parse`d records of unknown shape (TypeScript `any`) are modelled by
  raw-record structures where `Option` encodes an absent / falsy / wrongly
  typed field;
- `Array.prototype.sort` (stable since ES2019) is modelled by the stable
  `List.mergeSort`;
- a JS `Map` built by repeated `set` (insertion order preserved, later
  writes to the same key overwrite in place) is modelled by a left fold of
  an in-place-update-or-append step over an association list.
-/

/-- Embedding of `TransactionType` from src/types.ts. -/
inductive TransactionType where
  | income
  | expense
deriving DecidableEq, Repr

/-- A calendar date `YYYY-MM-DD` (month 1-based), the parse of the `date`
string of a transaction at local midnight. -/
structure YMD where
  year : Nat
  month : Nat
  day : Nat
deriving DecidableEq, Repr

/-- Comparison `new Date(a) < new Date(b)` of two dates at local midnight:
lexicographic on (year, month, day). -/
def YMD.ltB (a b : YMD) : Bool :=
  a.year < b.year ||
    (a.year == b.year && (a.month < b.month || (a.month == b.month && a.day < b.day)))

/-- Non-strict version of `YMD.ltB`, used as the mergeSort order. -/
def YMD.leB (a b : YMD) : Bool := a.ltB b || a == b

/-- Embedding of `Transaction` from src/types.ts.  `Category` is a TS string enum in which
`OTHER_EXPENSE` and `OTHER_INCOME` share the runtime value `"Other"`, so the
category is modelled by its runtime string. -/
structure Transaction where
  id : String
  type : TransactionType
  category : String
  amount : ℚ
  description : String
  date : YMD
deriving DecidableEq, Repr

/-- Embedding of `EXPENSE_CATEGORIES` from src/constants.ts (runtime string values). -/
def EXPENSE_CATEGORIES : List String :=
  ["Food", "Transportation", "Housing", "Utilities", "Entertainment",
   "Healthcare", "Shopping", "Other"]

/-- Embedding of `INCOME_CATEGORIES` from src/constants.ts (runtime string values). -/
def INCOME_CATEGORIES : List String :=
  ["Salary", "Freelance", "Investments", "Gifts", "Other"]

/-- Embedding of `ALL_CATEGORIES = [...EXPENSE_CATEGORIES, ...INCOME_CATEGORIES]`. -/
def ALL_CATEGORIES : List String := EXPENSE_CATEGORIES ++ INCOME_CATEGORIES

/-- A raw transaction record from a parsed JSON file (TypeScript `any`).
`none` encodes an absent, falsy or wrongly typed field; for string fields
the empty string is JS-falsy and is kept explicit. -/
structure RawTx where
  id : Option String
  type : String
  category : Option String
  amount : Option ℚ
  description : String
  date : Option YMD
deriving DecidableEq, Repr

/-- Default category `t.type === INCOME ? INCOME_CATEGORIES[0] : EXPENSE_CATEGORIES[0]`
from `addTransactions` (src/App.tsx). -/
def defaultCategory (rawType : String) : String :=
  if rawType = "income" then "Salary" else "Food"

/-- The record constructor inside `addTransactions`' sanitizing `.map`
(src/App.tsx lines 257-266), for a raw record whose `amount` is the number
`a` and whose `date` parses to `d`.  `fresh n` stands for the `uuidv4()`
call made for the n-th record that needed a fresh id. -/
def sanitizeTx (fresh : Nat → String) (n : Nat) (r : RawTx) (a : ℚ) (d : YMD) :
    Transaction :=
  { id := match r.id with
      | some s => if s = "" then fresh n else s
      | none => fresh n
    type := if r.type = "income" then .income else .expense
    category := match r.category with
      | some c => if c ≠ "" ∧ c ∈ ALL_CATEGORIES then c else defaultCategory r.type
      | none => defaultCategory r.type
    amount := a
    description := if r.description = "" then "Imported Transaction" else r.description
    date := d }

/-- The `.filter(...).map(...)` sanitizing pipeline of `addTransactions`
(src/App.tsx lines 255-266): records without a numeric `amount` or a truthy
string `date` are dropped, the rest are normalized by `sanitizeTx`. -/
def sanitizeTxs (fresh : Nat → String) : Nat → List RawTx → List Transaction
  | _, [] => []
  | n, r :: rs =>
    match r.amount, r.date with
    | some a, some d => sanitizeTx fresh n r a d :: sanitizeTxs fresh (n + 1) rs
    | some _, none => sanitizeTxs fresh n rs
    | none, _ => sanitizeTxs fresh n rs

/-- One step of `new Map(list.map(x => [key x, x]))`: if the key is already
present its value is overwritten in place, otherwise the entry is appended
(JS Map insertion-order semantics). -/
def upsertBy {α κ : Type} [DecidableEq κ] (key : α → κ) (acc : List α) (x : α) :
    List α :=
  if acc.any (fun u => decide (key u = key x)) then
    acc.map (fun u => if key u = key x then x else u)
  else acc ++ [x]

/-- Embedding of `Array.from(new Map(l.map(x => [key x, x])).values())`: keep one entry
per key, at the position of the key's first occurrence, with the value of
the key's last occurrence. -/
def dedupBy {α κ : Type} [DecidableEq κ] (key : α → κ) (l : List α) : List α :=
  l.foldl (upsertBy key) []

/-- Embedding of `unique.sort((a, b) => new Date(b.date).getTime() - new Date(a.date).getTime())`:
stable sort, descending by date. -/
def sortByDateDesc (l : List Transaction) : List Transaction :=
  l.mergeSort (fun a b => YMD.leB b.date a.date)

/-- Embedding of `addTransactions` from src/App.tsx (lines 253-272): sanitize the incoming
batch, append it to the previous list, deduplicate by `id` (later occurrence
wins) and sort descending by date. -/
def addTransactions (prev : List Transaction) (newTransactions : List RawTx)
    (fresh : Nat → String) : List Transaction :=
  sortByDateDesc (dedupBy (fun t => t.id) (prev ++ sanitizeTxs fresh 0 newTransactions))

/-- Embedding of `deleteTransaction` from src/App.tsx (lines 278-280):
`prev.filter(t => t.id !== id)`. -/
def deleteTransaction (prev : List Transaction) (id : String) : List Transaction :=
  prev.filter (fun t => decide (t.id ≠ id))

/-- Embedding of `new Date(currentYear, currentMonth0, 1)` with `currentMonth0` the 0-based
`getMonth()` value: the first day of the reference month, here taken with a
1-based month argument. -/
def firstDayOfMonth (year month : Nat) : YMD := ⟨year, month, 1⟩

/-- Embedding of `openingBalance` from src/App.tsx (lines 411-426): over the transactions
dated strictly before the first day of the reference month (1-based `month`),
fold the signed amount (income adds, expense subtracts) starting from 0. -/
def openingBalance (transactions : List Transaction) (year month : Nat) : ℚ :=
  (transactions.filter (fun t => YMD.ltB t.date (firstDayOfMonth year month))).foldl
    (fun balance t =>
      match t.type with
      | .income => balance + t.amount
      | .expense => balance - t.amount) 0

/-- Signed amount of a transaction: income counts positively, expense
negatively. -/
def signedAmount (t : Transaction) : ℚ :=
  match t.type with
  | .income => t.amount
  | .expense => -t.amount

/-- Modelled from the spec wording of `openingBalance`: the signed sum of
every transaction dated strictly before the first day of the reference
month. -/
def openingBalanceSpec (transactions : List Transaction) (year month : Nat) : ℚ :=
  (transactions.map (fun t =>
    if YMD.ltB t.date ⟨year, month, 1⟩ then signedAmount t else 0)).sum

/-- A legacy import record `Omit<Transaction, 'id'>` as used by the older
`addTransactions` in src/unnamed/part_002. -/
structure RawTxNoId where
  type : TransactionType
  category : String
  amount : ℚ
  description : String
  date : YMD
deriving DecidableEq, Repr

/-- Embedding of `newTransactions.map(t => ({ ...t, id: uuidv4() }))` from the older
`addTransactions` (src/unnamed/part_002): every record gets a fresh id. -/
def withFreshIds (fresh : Nat → String) : Nat → List RawTxNoId → List Transaction
  | _, [] => []
  | n, r :: rs =>
    ⟨fresh n, r.type, r.category, r.amount, r.description, r.date⟩ ::
      withFreshIds fresh (n + 1) rs

/-- The composite deduplication key of the older `addTransactions`
(src/unnamed/part_002): the template string
`date-description-amount-type-category`, modelled as the tuple of the joined
fields. -/
def compositeKey (t : Transaction) : YMD × String × ℚ × TransactionType × String :=
  (t.date, t.description, t.amount, t.type, t.category)

/-- Embedding of `addTransactions` from src/unnamed/part_002 (lines 18-30): assign fresh
ids to all records, append, deduplicate on the composite key, sort descending
by date. -/
def addTransactionsLegacy (prev : List Transaction) (newTxs : List RawTxNoId)
    (fresh : Nat → String) : List Transaction :=
  sortByDateDesc (dedupBy compositeKey (prev ++ withFreshIds fresh 0 newTxs))

/-- Embedding of `PlannedExpense` as used by src/App.tsx: `targetMonth` is the parse of a
`YYYY-MM` string into (year, 1-based month); `reminderDateTime` is an epoch
timestamp.  `none` encodes an absent or empty (falsy) optional field. -/
structure PlannedExpense where
  id : String
  title : String
  description : Option String
  amount : ℚ
  category : String
  isReminderSet : Bool
  reminderDateTime : Option Nat
  notificationShown : Bool
  isRecurring : Bool
  targetMonth : Option (Int × Int)
deriving DecidableEq, Repr

/-- The keep-predicate of the expired-plan sweep (src/App.tsx lines 232-244):
keep recurring plans; for a non-recurring plan with a truthy `targetMonth`
`(y, m)` (m 1-based), drop it when `y < currentYear` or
`y = currentYear ∧ m - 1 < currentMonth0` (`currentMonth0` is the 0-based
`getMonth()` of today); keep plans without a `targetMonth`. -/
def keepPlanB (currentYear currentMonth0 : Int) (p : PlannedExpense) : Bool :=
  if p.isRecurring then true
  else
    match p.targetMonth with
    | some (y, m) => !(decide (y < currentYear) || (decide (y = currentYear) && decide (m - 1 < currentMonth0)))
    | none => true

/-- The expired-plan sweep `plansToKeep` (src/App.tsx lines 227-250). -/
def sweepExpiredPlans (plans : List PlannedExpense) (currentYear currentMonth0 : Int) :
    List PlannedExpense :=
  plans.filter (keepPlanB currentYear currentMonth0)

/-- Modelled from the spec wording: a plan's target month `(y, m)` (1-based)
is strictly earlier than the current calendar month `(cy, m1)` (1-based). -/
def monthEarlier (y m cy m1 : Int) : Prop := y < cy ∨ (y = cy ∧ m < m1)

instance (y m cy m1 : Int) : Decidable (monthEarlier y m cy m1) := by
  unfold monthEarlier
  infer_instance

/-- Modelled from the spec wording of the sweep: a non-recurring plan is
expired when it has a target month strictly earlier than the current
calendar month (whose 1-based number is `currentMonth0 + 1`). -/
def expiredSpecB (currentYear currentMonth0 : Int) (p : PlannedExpense) : Bool :=
  match p.targetMonth with
  | some (y, m) => decide (monthEarlier y m currentYear (currentMonth0 + 1))
  | none => false

/-- Embedding of `transactions.filter(t => t.type === EXPENSE)` (src/components/ExpenseChart.tsx
line 77). -/
def expensesOf (transactions : List Transaction) : List Transaction :=
  transactions.filter (fun t => decide (t.type = TransactionType.expense))

/-- Embedding of `expenses.reduce((sum, t) => sum + t.amount, 0)` (src/components/ExpenseChart.tsx
line 79). -/
def totalExpense (transactions : List Transaction) : ℚ :=
  (expensesOf transactions).foldl (fun sum t => sum + t.amount) 0

/-- One accumulation step of `acc[k] = (acc[k] || 0) + a` on a JS object or
Map: update the (unique) existing entry in place, else append. -/
def bumpAssoc {κ : Type} [DecidableEq κ] : List (κ × ℚ) → κ → ℚ → List (κ × ℚ)
  | [], k, a => [(k, a)]
  | (k0, v) :: rest, k, a =>
    if k0 = k then (k0, v + a) :: rest else (k0, v) :: bumpAssoc rest k a

/-- Lookup with default 0, the read `map.get(k) || 0` / `acc[k] || 0`. -/
def assocGetD {κ : Type} [DecidableEq κ] : List (κ × ℚ) → κ → ℚ
  | [], _ => 0
  | (k0, v) :: rest, k => if k0 = k then v else assocGetD rest k

/-- Embedding of `expenses.reduce(...)` building `expenseByCategory`
(src/components/ExpenseChart.tsx lines 82-86), in object-insertion order. -/
def expenseByCategory (transactions : List Transaction) : List (String × ℚ) :=
  (expensesOf transactions).foldl (fun acc t => bumpAssoc acc t.category t.amount) []

/-- An entry of the pie chart data: `{ name, value, percent }`. -/
structure PieEntry where
  name : String
  value : ℚ
  percent : ℚ
deriving DecidableEq, Repr

/-- Embedding of `pieChartData` (src/components/ExpenseChart.tsx lines 80-93): when the
total expense is positive, one entry per category with its share of the
total in percent, sorted descending by summed amount; otherwise empty. -/
def pieChartData (transactions : List Transaction) : List PieEntry :=
  if 0 < totalExpense transactions then
    ((expenseByCategory transactions).map (fun e =>
        PieEntry.mk e.1 e.2 (e.2 / totalExpense transactions * 100))).mergeSort
      (fun a b => decide (b.value ≤ a.value))
  else []

/-- Leap-year rule used by the JS `Date` month arithmetic. -/
def isLeapYear (y : Nat) : Bool := (y % 4 == 0 && y % 100 != 0) || y % 400 == 0

/-- Embedding of `new Date(year, month0 + 1, 0).getDate()` with `month0` 0-based: the
number of days in the month. -/
def daysInMonth (year month0 : Nat) : Nat :=
  if month0 = 1 then (if isLeapYear year then 29 else 28)
  else if month0 ∈ [3, 5, 8, 10] then 30 else 31

/-- An entry of the daily-spending line chart: `{ day, amount }`. -/
structure DayPoint where
  day : Nat
  amount : ℚ
deriving DecidableEq, Repr

/-- Embedding of `expensesByDay` (src/components/ExpenseChart.tsx lines 101-105): a Map
from day of month to summed expense amount. -/
def expensesByDay (expenses : List Transaction) : List (Nat × ℚ) :=
  expenses.foldl (fun acc t => bumpAssoc acc t.date.day t.amount) []

/-- Embedding of `lineChartData` (src/components/ExpenseChart.tsx lines 95-110): built
only when the month has at least one expense transaction; then one entry per
day 1..daysInMonth of the reference month (`month0` 0-based), zero-filled. -/
def lineChartData (transactions : List Transaction) (year month0 : Nat) :
    List DayPoint :=
  let expenses := expensesOf transactions
  if expenses.isEmpty then []
  else
    (List.range (daysInMonth year month0)).map
      (fun i => ⟨i + 1, assocGetD (expensesByDay expenses) (i + 1)⟩)

/-- Modelled from the spec wording of `dailySeries`: the summed expense
amount of the reference month's transactions on day `d`. -/
def daySum (transactions : List Transaction) (d : Nat) : ℚ :=
  (((expensesOf transactions).filter (fun t => decide (t.date.day = d))).map
    (fun t => t.amount)).sum

/-- A raw planned-expense record from a parsed JSON file.  String fields use
`""` for absent/falsy; Boolean fields model the `!!p.x` coercion result. -/
structure RawPlan where
  id : Option String
  title : String
  description : String
  amount : Option ℚ
  category : Option String
  isReminderSet : Bool
  reminderDateTime : Option Nat
  notificationShown : Bool
  isRecurring : Bool
  targetMonth : Option (Int × Int)
deriving DecidableEq, Repr

/-- The record constructor inside `addPlannedExpensesBatch`'s sanitizing
`.map` (src/App.tsx lines 294-305), for a record whose `amount` is the
number `a`. -/
def sanitizePlan (fresh : Nat → String) (n : Nat) (p : RawPlan) (a : ℚ) :
    PlannedExpense :=
  { id := match p.id with
      | some s => if s = "" then fresh n else s
      | none => fresh n
    title := p.title
    description := if p.description = "" then none else some p.description
    amount := a
    category := match p.category with
      | some c => if c ≠ "" ∧ c ∈ EXPENSE_CATEGORIES then c else "Food"
      | none => "Food"
    isReminderSet := p.isReminderSet
    reminderDateTime := p.reminderDateTime
    notificationShown := p.notificationShown
    isRecurring := p.isRecurring
    targetMonth := p.targetMonth }

/-- The `.filter(...).map(...)` sanitizing pipeline of
`addPlannedExpensesBatch` (src/App.tsx lines 292-305): records without a
truthy `title` or a numeric `amount` are dropped. -/
def sanitizePlans (fresh : Nat → String) : Nat → List RawPlan → List PlannedExpense
  | _, [] => []
  | n, p :: ps =>
    match p.amount with
    | some a =>
      if p.title = "" then sanitizePlans fresh n ps
      else sanitizePlan fresh n p a :: sanitizePlans fresh (n + 1) ps
    | none => sanitizePlans fresh n ps

/-- The plan sort comparator (src/App.tsx line 309): ascending by
`reminderDateTime` when both entries have one, otherwise unordered (the JS
comparator returns 0). -/
def planLeB (a b : PlannedExpense) : Bool :=
  match a.reminderDateTime, b.reminderDateTime with
  | some x, some y => decide (x ≤ y)
  | _, _ => true

/-- Embedding of `addPlannedExpensesBatch` from src/App.tsx (lines 290-311). -/
def addPlannedExpensesBatch (prev : List PlannedExpense) (newPlans : List RawPlan)
    (fresh : Nat → String) : List PlannedExpense :=
  (dedupBy (fun p => p.id) (prev ++ sanitizePlans fresh 0 newPlans)).mergeSort planLeB

/-- Presence/shape of the `transactions` / `plannedExpenses` field of a
parsed backup object: absent, present with a non-array value, or present
with an array value. -/
inductive JField (α : Type) where
  | absent
  | present (arrayValue : Option (List α))

/-- Embedding of `'field' in data` for a `JField`. -/
def JField.isPresent {α : Type} : JField α → Bool
  | .absent => false
  | .present _ => true

/-- Embedding of `Array.isArray(data.field) ? data.field : []` for a `JField`. -/
def JField.arr {α : Type} : JField α → List α
  | .present (some xs) => xs
  | _ => []

/-- The parsed top-level JSON value of an uploaded backup file, as
discriminated by `handleFileChange` (src/App.tsx lines 348-363): an array
(legacy format), a non-array object (with the shapes of its `transactions`
and `plannedExpenses` fields), or any other value. -/
inductive ParsedJson where
  | arr (txs : List RawTx)
  | obj (transactions : JField RawTx) (plannedExpenses : JField RawPlan)
  | other

/-- The application state touched by an import. -/
structure AppState where
  transactions : List Transaction
  plannedExpenses : List PlannedExpense

/-- The user-facing alert raised by `handleFileChange`. -/
inductive ImportAlert where
  | importedOk
  | noData
  | importFailed
deriving DecidableEq, Repr

/-- The observable outcome of `handleFileChange`'s reader callback: the new
state, the alert shown, and whether the file input was reset. -/
structure ImportOutcome where
  state : AppState
  alert : ImportAlert
  inputReset : Bool

/-- The import section of `handleFileChange` (src/App.tsx lines 365-383)
once the batches have been extracted: call `addTransactions` /
`addPlannedExpensesBatch` only on non-empty batches, report success or
"no data", and reset the input. -/
def importBatches (freshT freshP : Nat → String) (st : AppState)
    (txs : List RawTx) (plans : List RawPlan) : ImportOutcome :=
  let st1 := if txs.isEmpty then st
    else { st with transactions := addTransactions st.transactions txs freshT }
  let st2 := if plans.isEmpty then st1
    else { st1 with plannedExpenses := addPlannedExpensesBatch st1.plannedExpenses plans freshP }
  ⟨st2, if txs.isEmpty && plans.isEmpty then .noData else .importedOk, true⟩

/-- The reader callback of `handleFileChange` (src/App.tsx lines 342-384)
from the parse result on: `none` stands for malformed JSON (`JSON.parse`
threw).  A non-array object bearing a `transactions` or `plannedExpenses`
field takes the structured branch; an array takes the legacy branch; every
other value throws, is caught, alerts, and leaves the state unchanged.  The
`finally` clause resets the file input on every path. -/
def handleParsedFile (freshT freshP : Nat → String) (st : AppState)
    (data : Option ParsedJson) : ImportOutcome :=
  match data with
  | none => ⟨st, .importFailed, true⟩
  | some (.obj ft fp) =>
    if ft.isPresent || fp.isPresent then
      importBatches freshT freshP st ft.arr fp.arr
    else ⟨st, .importFailed, true⟩
  | some (.arr txs) => importBatches freshT freshP st txs []
  | some .other => ⟨st, .importFailed, true⟩

/-- A bad parse result in the sense of claim C9: malformed JSON, or a
top-level value that is neither an array nor an object bearing a
`transactions` or `plannedExpenses` field. -/
def badShape (data : Option ParsedJson) : Prop :=
  data = none ∨ data = some .other ∨ data = some (.obj .absent .absent)

/-- The parsed content of the backup file written by `handleDownloadJson`
(src/components/TransactionList.tsx lines 110-120): `JSON.stringify` of the
full transaction list, which re-parses to an array of records carrying all
six fields verbatim. -/
def rawOfTx (t : Transaction) : RawTx :=
  { id := some t.id
    type := match t.type with | .income => "income" | .expense => "expense"
    category := some t.category
    amount := some t.amount
    description := t.description
    date := some t.date }

/-- The exported backup of a transaction list, as a parsed JSON array. -/
def exportedJson (l : List Transaction) : List RawTx := l.map rawOfTx

theorem keys_upsertBy_of_mem {α κ : Type} [DecidableEq κ] (key : α → κ)
    (acc : List α) (x : α)
    (h : acc.any (fun u => decide (key u = key x)) = true) :
    (upsertBy key acc x).map key = acc.map key := by
  unfold upsertBy
  rw [if_pos h, List.map_map]
  apply List.map_congr_left
  intro u _
  by_cases hu : key u = key x
  · simp only [Function.comp_apply, if_pos hu]
    exact hu.symm
  · simp only [Function.comp_apply, if_neg hu]

theorem keys_upsertBy_of_not_mem {α κ : Type} [DecidableEq κ] (key : α → κ)
    (acc : List α) (x : α)
    (h : ¬ acc.any (fun u => decide (key u = key x)) = true) :
    (upsertBy key acc x).map key = acc.map key ++ [key x] := by
  unfold upsertBy
  rw [if_neg h, List.map_append]
  rfl

theorem nodup_keys_upsertBy {α κ : Type} [DecidableEq κ] (key : α → κ)
    (acc : List α) (x : α) (h : (acc.map key).Nodup) :
    ((upsertBy key acc x).map key).Nodup := by
  by_cases hp : acc.any (fun u => decide (key u = key x)) = true
  · rw [keys_upsertBy_of_mem key acc x hp]
    exact h
  · rw [keys_upsertBy_of_not_mem key acc x hp]
    rw [List.nodup_append]
    refine ⟨h, List.nodup_singleton _, ?_⟩
    intro k hk
    simp only [List.any_eq_true, decide_eq_true_eq] at hp
    simp only [List.mem_map] at hk
    obtain ⟨u, hu, rfl⟩ := hk
    simp only [List.mem_singleton]
    intro hkey
    exact hp ⟨u, hu, hkey⟩

theorem nodup_keys_foldl_upsertBy {α κ : Type} [DecidableEq κ] (key : α → κ) :
    ∀ (l acc : List α), (acc.map key).Nodup →
      ((l.foldl (upsertBy key) acc).map key).Nodup := by
  intro l
  induction l with
  | nil => intro acc h; exact h
  | cons x xs ih =>
    intro acc h
    exact ih (upsertBy key acc x) (nodup_keys_upsertBy key acc x h)

theorem nodup_keys_dedupBy {α κ : Type} [DecidableEq κ] (key : α → κ)
    (l : List α) : ((dedupBy key l).map key).Nodup :=
  nodup_keys_foldl_upsertBy key l [] (by simp)

theorem nodup_keys_of_perm {α κ : Type} (key : α → κ) {l m : List α}
    (hp : l.Perm m) (h : (m.map key).Nodup) : (l.map key).Nodup :=
  ((hp.map key).nodup_iff).mpr h

theorem nodup_ids_addTransactions (prev : List Transaction)
    (newTransactions : List RawTx) (fresh : Nat → String) :
    ((addTransactions prev newTransactions fresh).map (fun t => t.id)).Nodup := by
  unfold addTransactions sortByDateDesc
  exact nodup_keys_of_perm _ (List.mergeSort_perm _ _) (nodup_keys_dedupBy _ _)

theorem nodup_ids_deleteTransaction (prev : List Transaction) (id : String)
    (h : (prev.map (fun t => t.id)).Nodup) :
    ((deleteTransaction prev id).map (fun t => t.id)).Nodup := by
  unfold deleteTransaction
  exact h.sublist ((List.filter_sublist prev).map _)

theorem filter_ne_id_of_not_mem (l : List Transaction) (X : String)
    (h : ∀ u ∈ l, u.id ≠ X) :
    l.filter (fun t => decide (t.id ≠ X)) = l := by
  apply List.filter_eq_self.mpr
  intro u hu
  exact decide_eq_true (h u hu)

/-- C3: after `addTransactions` (the function both import paths call) the
transaction collection never contains two entries with the same `id`, and
`deleteTransaction` preserves that invariant; so id-uniqueness holds after
every mutation of the collection. -/
theorem claim3_structured_import_id_unique :
    (∀ (prev : List Transaction) (batch : List RawTx) (fresh : Nat → String),
        ((addTransactions prev batch fresh).map (fun t => t.id)).Nodup) ∧
    (∀ (prev : List Transaction) (id : String),
        (prev.map (fun t => t.id)).Nodup →
        ((deleteTransaction prev id).map (fun t => t.id)).Nodup) :=
  ⟨nodup_ids_addTransactions, nodup_ids_deleteTransaction⟩

theorem claim3_structured_import_id_unique_witness :
    (([⟨"a", .income, "Salary", (5 : ℚ), "x", ⟨2024, 1, 2⟩⟩,
       ⟨"b", .expense, "Food", (3 : ℚ), "y", ⟨2024, 1, 3⟩⟩] :
        List Transaction).map (fun t => t.id)).Nodup ∧
    ((deleteTransaction
        [⟨"a", .income, "Salary", (5 : ℚ), "x", ⟨2024, 1, 2⟩⟩,
         ⟨"b", .expense, "Food", (3 : ℚ), "y", ⟨2024, 1, 3⟩⟩] "a").map
      (fun t => t.id)).Nodup :=
  ⟨by decide, claim3_structured_import_id_unique.2 _ "a" (by decide)⟩

/-- C5: on a list with distinct ids that contains a transaction with id `X`,
`deleteTransaction` removes exactly that one record and leaves every other
record, in its original relative order, unchanged. -/
theorem claim5_delete_removes_exactly_one (l : List Transaction) (X : String)
    (hnd : (l.map (fun t => t.id)).Nodup) (hmem : X ∈ l.map (fun t => t.id)) :
    ∃ l1 t l2, l = l1 ++ t :: l2 ∧ t.id = X ∧ deleteTransaction l X = l1 ++ l2 := by
  induction l with
  | nil => simp at hmem
  | cons a rest ih =>
    rw [List.map_cons, List.nodup_cons] at hnd
    obtain ⟨ha, hrest⟩ := hnd
    by_cases hX : a.id = X
    · refine ⟨[], a, rest, rfl, hX, ?_⟩
      have hstep : deleteTransaction (a :: rest) X = deleteTransaction rest X := by
        unfold deleteTransaction
        rw [List.filter_cons]
        simp [hX]
      rw [hstep, List.nil_append]
      unfold deleteTransaction
      apply filter_ne_id_of_not_mem
      intro u hu hUX
      apply ha
      rw [hX, ← hUX]
      exact List.mem_map_of_mem (fun t => t.id) hu
    · have hmem2 : X ∈ rest.map (fun t => t.id) := by
        rcases List.mem_cons.mp hmem with h1 | h2
        · exact absurd h1.symm hX
        · exact h2
      obtain ⟨l1, t, l2, heq, htX, hdel⟩ := ih hrest hmem2
      refine ⟨a :: l1, t, l2, by rw [heq]; rfl, htX, ?_⟩
      have hstep : deleteTransaction (a :: rest) X = a :: deleteTransaction rest X := by
        unfold deleteTransaction
        rw [List.filter_cons]
        simp [hX]
      rw [hstep, hdel]
      rfl

theorem claim5_delete_removes_exactly_one_witness :
    (([⟨"a", .income, "Salary", (5 : ℚ), "x", ⟨2024, 1, 2⟩⟩,
       ⟨"b", .expense, "Food", (3 : ℚ), "y", ⟨2024, 1, 3⟩⟩] :
        List Transaction).map (fun t => t.id)).Nodup ∧
    "b" ∈ ([⟨"a", .income, "Salary", (5 : ℚ), "x", ⟨2024, 1, 2⟩⟩,
            ⟨"b", .expense, "Food", (3 : ℚ), "y", ⟨2024, 1, 3⟩⟩] :
        List Transaction).map (fun t => t.id) ∧
    (∃ l1 t l2,
      ([⟨"a", .income, "Salary", (5 : ℚ), "x", ⟨2024, 1, 2⟩⟩,
        ⟨"b", .expense, "Food", (3 : ℚ), "y", ⟨2024, 1, 3⟩⟩] :
          List Transaction) = l1 ++ t :: l2 ∧ t.id = "b" ∧
      deleteTransaction
        [⟨"a", .income, "Salary", (5 : ℚ), "x", ⟨2024, 1, 2⟩⟩,
         ⟨"b", .expense, "Food", (3 : ℚ), "y", ⟨2024, 1, 3⟩⟩] "b" = l1 ++ l2) :=
  ⟨by decide, by decide, claim5_delete_removes_exactly_one _ "b" (by decide) (by decide)⟩

theorem foldl_signed_eq_sum (l : List Transaction) (b : ℚ) :
    l.foldl (fun balance t =>
      match t.type with
      | .income => balance + t.amount
      | .expense => balance - t.amount) b = b + (l.map signedAmount).sum := by
  induction l generalizing b with
  | nil => simp
  | cons a rest ih =>
    rw [List.foldl_cons, ih, List.map_cons, List.sum_cons]
    have hstep : (match a.type with
        | .income => b + a.amount
        | .expense => b - a.amount) = b + signedAmount a := by
      unfold signedAmount
      cases a.type
      · rfl
      · rw [sub_eq_add_neg]
    rw [hstep]
    ring

theorem filter_map_sum_eq_ite_sum (l : List Transaction) (p : Transaction → Bool)
    (f : Transaction → ℚ) :
    ((l.filter p).map f).sum = (l.map (fun t => if p t then f t else 0)).sum := by
  induction l with
  | nil => rfl
  | cons a rest ih =>
    rw [List.filter_cons, List.map_cons, List.sum_cons]
    by_cases hp : p a
    · rw [if_pos hp, if_pos hp, List.map_cons, List.sum_cons, ih]
    · rw [if_neg hp, if_neg hp, ih, zero_add]

/-- C1: `openingBalance` equals the signed sum (income adds, expense
subtracts) over exactly the transactions dated strictly before the first day
of the reference month; in particular for
`[{2024-01-15, income, 1000}, {2024-02-01, expense, 200}]` the opening
balance of March 2024 is 800. -/
theorem claim1_openingBalance_signed_sum :
    (∀ (transactions : List Transaction) (year month : Nat),
        openingBalance transactions year month =
          openingBalanceSpec transactions year month) ∧
    openingBalance
      [⟨"t1", .income, "Salary", (1000 : ℚ), "Pay", ⟨2024, 1, 15⟩⟩,
       ⟨"t2", .expense, "Food", (200 : ℚ), "Groceries", ⟨2024, 2, 1⟩⟩]
      2024 3 = 800 := by
  constructor
  · intro transactions year month
    unfold openingBalance openingBalanceSpec firstDayOfMonth
    rw [foldl_signed_eq_sum, zero_add,
      filter_map_sum_eq_ite_sum transactions _ signedAmount]
  · norm_num [openingBalance, firstDayOfMonth, YMD.ltB, List.filter,
      List.foldl]

theorem keepPlanB_eq_spec (cy cm0 : Int) (p : PlannedExpense) :
    keepPlanB cy cm0 p = (p.isRecurring || !(expiredSpecB cy cm0 p)) := by
  unfold keepPlanB expiredSpecB
  cases hr : p.isRecurring
  · simp only [Bool.false_eq_true, if_false, Bool.false_or]
    cases hm : p.targetMonth with
    | none => simp
    | some ym =>
      obtain ⟨y, m⟩ := ym
      show (!(decide (y < cy) || decide (y = cy) && decide (m - 1 < cm0))) =
        !decide (monthEarlier y m cy (cm0 + 1))
      apply congrArg
      rw [Bool.eq_iff_iff]
      simp only [Bool.or_eq_true, Bool.and_eq_true, decide_eq_true_eq]
      unfold monthEarlier
      omega
  · simp [hr]

/-- C6: the expired-plan sweep keeps exactly the plans that are recurring or
not expired (target month not strictly earlier than the current calendar
month), in their original order; hence every recurring plan is retained and
every non-recurring plan with an earlier target month is absent. -/
theorem claim6_sweep_expired_plans (plans : List PlannedExpense)
    (cy cm0 : Int) :
    sweepExpiredPlans plans cy cm0 =
      plans.filter (fun p => p.isRecurring || !(expiredSpecB cy cm0 p)) ∧
    (∀ p ∈ plans, p.isRecurring = true → p ∈ sweepExpiredPlans plans cy cm0) ∧
    (∀ p ∈ plans, p.isRecurring = false → ∀ y m : Int,
      p.targetMonth = some (y, m) → monthEarlier y m cy (cm0 + 1) →
      p ∉ sweepExpiredPlans plans cy cm0) := by
  refine ⟨List.filter_congr (fun p _ => keepPlanB_eq_spec cy cm0 p), ?_, ?_⟩
  · intro p hp hr
    unfold sweepExpiredPlans
    exact List.mem_filter.mpr ⟨hp, by simp [keepPlanB, hr]⟩
  · intro p _ hr y m htm hearly hmem
    unfold sweepExpiredPlans at hmem
    have hkeep := (List.mem_filter.mp hmem).2
    rw [keepPlanB_eq_spec] at hkeep
    simp only [hr, Bool.false_or, Bool.not_eq_true'] at hkeep
    unfold expiredSpecB at hkeep
    rw [htm] at hkeep
    simp only [decide_eq_false_iff_not] at hkeep
    exact hkeep hearly

theorem claim6_sweep_expired_plans_witness :
    (⟨"p1", "Rent", none, (100 : ℚ), "Housing", false, none, false, true, none⟩ :
        PlannedExpense) ∈
      sweepExpiredPlans
        [⟨"p1", "Rent", none, (100 : ℚ), "Housing", false, none, false, true, none⟩,
         ⟨"p2", "Trip", none, (50 : ℚ), "Entertainment", false, none, false, false,
          some (2024, 3)⟩] 2024 5 ∧
    (⟨"p2", "Trip", none, (50 : ℚ), "Entertainment", false, none, false, false,
        some (2024, 3)⟩ : PlannedExpense) ∉
      sweepExpiredPlans
        [⟨"p1", "Rent", none, (100 : ℚ), "Housing", false, none, false, true, none⟩,
         ⟨"p2", "Trip", none, (50 : ℚ), "Entertainment", false, none, false, false,
          some (2024, 3)⟩] 2024 5 := by
  constructor
  · exact (claim6_sweep_expired_plans _ 2024 5).2.1 _
      (List.mem_cons_self _ _) rfl
  · exact (claim6_sweep_expired_plans _ 2024 5).2.2 _
      (List.mem_cons_of_mem _ (List.mem_cons_self _ _)) rfl 2024 3 rfl
      (Or.inr ⟨rfl, by norm_num⟩)

/-- C2 counterexample: importing the legacy-format batch of two records that
agree on (date, description, amount, type, category) but carry distinct ids
leaves both in the repository, because the current `addTransactions`
(src/App.tsx) deduplicates only by `id`. -/
theorem claim2_counterexample_composite_duplicate_survives :
    ¬ (((addTransactions []
        [⟨some "a", "income", some "Salary", some (100 : ℚ), "Pay",
          some ⟨2024, 1, 15⟩⟩,
         ⟨some "b", "income", some "Salary", some (100 : ℚ), "Pay",
          some ⟨2024, 1, 15⟩⟩] (fun _ => "u")).map compositeKey).Nodup) := by
  simp [addTransactions, sanitizeTxs, sanitizeTx, dedupBy, upsertBy,
    sortByDateDesc, List.mergeSort, compositeKey, ALL_CATEGORIES,
    EXPENSE_CATEGORIES, INCOME_CATEGORIES, defaultCategory, YMD.leB, YMD.ltB,
    List.foldl]

/-- C2 amended: the composite-key deduplication holds of the older
`addTransactions` variant (src/unnamed/part_002), which assigns fresh ids to
every imported record and deduplicates on
(date, description, amount, type, category); there, after any legacy
batch import no two transactions share that composite key.  In the current
src/App.tsx, the legacy path deduplicates by `id` only, so records with
distinct ids and identical composite keys may both remain
(see the counterexample). -/
theorem claim2_amended_legacy_composite_unique (prev : List Transaction)
    (newTxs : List RawTxNoId) (fresh : Nat → String) :
    ((addTransactionsLegacy prev newTxs fresh).map compositeKey).Nodup := by
  unfold addTransactionsLegacy sortByDateDesc
  exact nodup_keys_of_perm _ (List.mergeSort_perm _ _) (nodup_keys_dedupBy _ _)

theorem upsertBy_cons_ne {α κ : Type} [DecidableEq κ] (key : α → κ) (a : α)
    (rest : List α) (x : α) (h : ¬ key a = key x) :
    upsertBy key (a :: rest) x = a :: upsertBy key rest x := by
  unfold upsertBy
  rw [List.any_cons]
  simp only [decide_eq_false h, Bool.false_or]
  by_cases hr : rest.any (fun u => decide (key u = key x)) = true
  · rw [if_pos hr, if_pos hr, List.map_cons, if_neg h]
  · rw [if_neg hr, if_neg hr]
    rfl

theorem upsertBy_cons_eq {α κ : Type} [DecidableEq κ] (key : α → κ) (a : α)
    (rest : List α) (x : α) (h : key a = key x)
    (hnd : ((a :: rest).map key).Nodup) :
    upsertBy key (a :: rest) x = x :: rest := by
  rw [List.map_cons, List.nodup_cons] at hnd
  unfold upsertBy
  have hany : (a :: rest).any (fun u => decide (key u = key x)) = true := by
    rw [List.any_cons, decide_eq_true h, Bool.true_or]
  rw [if_pos hany, List.map_cons, if_pos h]
  congr 1
  have hrest : ∀ u ∈ rest, (if key u = key x then x else u) = u := by
    intro u hu
    apply if_neg
    intro hux
    apply hnd.1
    rw [h, ← hux]
    exact List.mem_map_of_mem key hu
  exact (List.map_congr_left hrest).trans (List.map_id rest)

theorem filter_key_upsertBy {α κ : Type} [DecidableEq κ] (key : α → κ) :
    ∀ (acc : List α) (x : α), ((acc.map key).Nodup) →
      (upsertBy key acc x).filter (fun u => decide (key u = key x)) = [x] := by
  intro acc
  induction acc with
  | nil =>
    intro x _
    show (upsertBy key [] x).filter _ = [x]
    unfold upsertBy
    simp
  | cons a rest ih =>
    intro x hnd
    have hnd2 := hnd
    rw [List.map_cons, List.nodup_cons] at hnd2
    by_cases h : key a = key x
    · rw [upsertBy_cons_eq key a rest x h hnd, List.filter_cons]
      have hnil : rest.filter (fun u => decide (key u = key x)) = [] := by
        apply List.filter_eq_nil_iff.mpr
        intro u hu
        simp only [decide_eq_true_eq]
        intro hux
        apply hnd2.1
        rw [h, ← hux]
        exact List.mem_map_of_mem key hu
      simp [hnil]
    · rw [upsertBy_cons_ne key a rest x h, List.filter_cons]
      simp only [decide_eq_false h, Bool.false_eq_true, if_false]
      exact ih x hnd2.2

theorem dedupBy_append_one {α κ : Type} [DecidableEq κ] (key : α → κ)
    (l : List α) (x : α) :
    dedupBy key (l ++ [x]) = upsertBy key (dedupBy key l) x := by
  unfold dedupBy
  rw [List.foldl_append]
  rfl

theorem foldl_upsertBy_fresh {α κ : Type} [DecidableEq κ] (key : α → κ) :
    ∀ (l acc : List α), (((acc ++ l).map key).Nodup) →
      l.foldl (upsertBy key) acc = acc ++ l := by
  intro l
  induction l with
  | nil => intro acc _; simp
  | cons x xs ih =>
    intro acc hnd
    have hx : ¬ acc.any (fun u => decide (key u = key x)) = true := by
      simp only [List.any_eq_true, decide_eq_true_eq]
      rintro ⟨u, hu, hux⟩
      rw [List.map_append, List.nodup_append] at hnd
      exact hnd.2.2 (List.mem_map_of_mem key hu)
        (by rw [hux]; exact List.mem_map_of_mem key (List.mem_cons_self x xs))
    rw [List.foldl_cons]
    have hup : upsertBy key acc x = acc ++ [x] := by
      unfold upsertBy
      rw [if_neg hx]
    rw [hup]
    have hrearr : acc ++ x :: xs = (acc ++ [x]) ++ xs := by simp
    rw [hrearr] at hnd ⊢
    exact ih (acc ++ [x]) hnd

theorem dedupBy_of_nodup_keys {α κ : Type} [DecidableEq κ] (key : α → κ)
    (l : List α) (hnd : (l.map key).Nodup) : dedupBy key l = l := by
  unfold dedupBy
  have := foldl_upsertBy_fresh key l [] (by simpa using hnd)
  simpa using this

theorem upsertBy_self {α κ : Type} [DecidableEq κ] (key : α → κ) (l : List α)
    (x : α) (hnd : (l.map key).Nodup) (hx : x ∈ l) : upsertBy key l x = l := by
  unfold upsertBy
  have hany : l.any (fun u => decide (key u = key x)) = true := by
    simp only [List.any_eq_true, decide_eq_true_eq]
    exact ⟨x, hx, rfl⟩
  rw [if_pos hany]
  have hrepl : ∀ u ∈ l, (if key u = key x then x else u) = u := by
    intro u hu
    by_cases hux : key u = key x
    · rw [if_pos hux]
      exact List.inj_on_of_nodup_map hnd hx hu hux.symm
    · exact if_neg hux
  exact (List.map_congr_left hrepl).trans (List.map_id l)

theorem foldl_upsertBy_self {α κ : Type} [DecidableEq κ] (key : α → κ) :
    ∀ (l acc : List α), ((acc.map key).Nodup) → (∀ x ∈ l, x ∈ acc) →
      l.foldl (upsertBy key) acc = acc := by
  intro l
  induction l with
  | nil => intro acc _ _; rfl
  | cons x xs ih =>
    intro acc hnd hmem
    rw [List.foldl_cons,
      upsertBy_self key acc x hnd (hmem x (List.mem_cons_self x xs))]
    exact ih acc hnd (fun y hy => hmem y (List.mem_cons_of_mem x hy))

theorem dedupBy_self_append {α κ : Type} [DecidableEq κ] (key : α → κ)
    (l : List α) (hnd : (l.map key).Nodup) : dedupBy key (l ++ l) = l := by
  unfold dedupBy
  rw [List.foldl_append]
  have h1 : l.foldl (upsertBy key) [] = l := dedupBy_of_nodup_keys key l hnd
  rw [h1]
  exact foldl_upsertBy_self key l l hnd (fun x hx => hx)

theorem mem_ALL_CATEGORIES_ne_empty (c : String) (hc : c ∈ ALL_CATEGORIES) :
    c ≠ "" := by
  intro hemp
  subst hemp
  exact absurd hc (by decide)

theorem sanitizeTx_rawOfTx (fresh : Nat → String) (n : Nat) (t : Transaction)
    (hid : t.id ≠ "") (hdesc : t.description ≠ "")
    (hcat : t.category ∈ ALL_CATEGORIES) :
    sanitizeTx fresh n (rawOfTx t) t.amount t.date = t := by
  obtain ⟨i, ty, c, a, de, dt⟩ := t
  simp only [rawOfTx, sanitizeTx] at *
  congr 1
  · exact if_neg hid
  · cases ty
    · show (if ("income" : String) = "income" then TransactionType.income
        else TransactionType.expense) = TransactionType.income
      rw [if_pos rfl]
    · show (if ("expense" : String) = "income" then TransactionType.income
        else TransactionType.expense) = TransactionType.expense
      rw [if_neg (by decide)]
  · exact if_pos ⟨mem_ALL_CATEGORIES_ne_empty c hcat, hcat⟩
  · exact if_neg hdesc

theorem sanitizeTxs_exported (fresh : Nat → String) :
    ∀ (l : List Transaction) (n : Nat),
      (∀ t ∈ l, t.id ≠ "" ∧ t.description ≠ "" ∧ t.category ∈ ALL_CATEGORIES) →
      sanitizeTxs fresh n (l.map rawOfTx) = l := by
  intro l
  induction l with
  | nil => intro n _; rfl
  | cons t rest ih =>
    intro n hwf
    obtain ⟨h1, h2, h3⟩ := hwf t (List.mem_cons_self t rest)
    rw [List.map_cons]
    show sanitizeTxs fresh n (rawOfTx t :: rest.map rawOfTx) = t :: rest
    unfold sanitizeTxs
    show (match (rawOfTx t).amount, (rawOfTx t).date with
      | some a, some d => sanitizeTx fresh n (rawOfTx t) a d ::
          sanitizeTxs fresh (n + 1) (rest.map rawOfTx)
      | some _, none => sanitizeTxs fresh n (rest.map rawOfTx)
      | none, _ => sanitizeTxs fresh n (rest.map rawOfTx)) = t :: rest
    rw [show (rawOfTx t).amount = some t.amount from rfl,
      show (rawOfTx t).date = some t.date from rfl]
    show sanitizeTx fresh n (rawOfTx t) t.amount t.date ::
        sanitizeTxs fresh (n + 1) (rest.map rawOfTx) = t :: rest
    rw [sanitizeTx_rawOfTx fresh n t h1 h2 h3]
    rw [ih (n + 1) (fun u hu => hwf u (List.mem_cons_of_mem t hu))]

theorem filter_map_replace_ne {α κ : Type} [DecidableEq κ] (key : α → κ)
    (x : α) (k : κ) (hx : ¬ key x = k) :
    ∀ acc : List α,
      (acc.map (fun u => if key u = key x then x else u)).filter
        (fun u => decide (key u = k)) =
      acc.filter (fun u => decide (key u = k)) := by
  intro acc
  induction acc with
  | nil => rfl
  | cons a rest ih =>
    rw [List.map_cons, List.filter_cons, List.filter_cons]
    by_cases ha : key a = key x
    · rw [if_pos ha, decide_eq_false hx,
        decide_eq_false (show ¬ key a = k from by rw [ha]; exact hx)]
      simp only [Bool.false_eq_true, if_false]
      exact ih
    · rw [if_neg ha]
      by_cases hak : key a = k
      · rw [decide_eq_true hak, if_pos rfl, if_pos rfl, ih]
      · rw [decide_eq_false hak]
        simp only [Bool.false_eq_true, if_false]
        exact ih

theorem filter_upsertBy_ne {α κ : Type} [DecidableEq κ] (key : α → κ)
    (acc : List α) (x : α) (k : κ) (hx : ¬ key x = k) :
    (upsertBy key acc x).filter (fun u => decide (key u = k)) =
      acc.filter (fun u => decide (key u = k)) := by
  unfold upsertBy
  split
  · exact filter_map_replace_ne key x k hx acc
  · rw [List.filter_append]
    have hnil : [x].filter (fun u => decide (key u = k)) = [] := by
      simp [hx]
    rw [hnil, List.append_nil]

theorem filter_foldl_upsertBy_ne {α κ : Type} [DecidableEq κ] (key : α → κ)
    (k : κ) :
    ∀ (l acc : List α), (∀ x ∈ l, ¬ key x = k) →
      ((l.foldl (upsertBy key) acc).filter (fun u => decide (key u = k))) =
        acc.filter (fun u => decide (key u = k)) := by
  intro l
  induction l with
  | nil => intro acc _; rfl
  | cons x xs ih =>
    intro acc hl
    rw [List.foldl_cons,
      ih (upsertBy key acc x) (fun y hy => hl y (List.mem_cons_of_mem x hy)),
      filter_upsertBy_ne key acc x k (hl x (List.mem_cons_self x xs))]

/-- C10: when a batch passed to `addTransactions` contains a record whose
sanitized form `t` carries the id of an already-stored transaction — `t`
being the batch's later (last) record with that id, among arbitrary other
records — the result keeps exactly one transaction with that id and its
field values are those of the newly imported record: the later occurrence
wins and the stored fields are silently overwritten, whatever else the
batch contains. -/
theorem claim10_id_collision_later_wins (prev : List Transaction)
    (batch : List RawTx) (fresh : Nat → String) (t : Transaction)
    (s1 s2 : List Transaction)
    (hs : sanitizeTxs fresh 0 batch = s1 ++ t :: s2)
    (hlater : ∀ u ∈ s2, u.id ≠ t.id)
    (_hmem : t.id ∈ prev.map (fun u => u.id)) :
    (addTransactions prev batch fresh).filter
      (fun s => decide (s.id = t.id)) = [t] := by
  unfold addTransactions sortByDateDesc
  rw [hs,
    show prev ++ (s1 ++ t :: s2) = ((prev ++ s1) ++ [t]) ++ s2 from by simp]
  have hded : dedupBy (fun u => u.id) (((prev ++ s1) ++ [t]) ++ s2) =
      s2.foldl (upsertBy (fun u => u.id))
        (upsertBy (fun u => u.id)
          ((prev ++ s1).foldl (upsertBy (fun u => u.id)) []) t) := by
    unfold dedupBy
    rw [List.foldl_append, List.foldl_append]
    rfl
  have hfil : (dedupBy (fun u => u.id) (((prev ++ s1) ++ [t]) ++ s2)).filter
      (fun s => decide (s.id = t.id)) = [t] := by
    rw [hded,
      filter_foldl_upsertBy_ne (fun u => u.id) t.id s2 _
        (fun u hu => hlater u hu)]
    exact filter_key_upsertBy (fun u => u.id) _ t
      (nodup_keys_dedupBy (fun u => u.id) (prev ++ s1))
  have hperm := (List.mergeSort_perm
    (dedupBy (fun u => u.id) (((prev ++ s1) ++ [t]) ++ s2))
    (fun a b => YMD.leB b.date a.date)).filter
    (fun s => decide (s.id = t.id))
  rw [hfil] at hperm
  exact List.perm_singleton.mp hperm

theorem claim10_id_collision_later_wins_witness :
    (sanitizeTxs (fun _ => "u") 0
        [rawOfTx ⟨"a", .income, "Salary", (5 : ℚ), "new", ⟨2024, 2, 2⟩⟩,
         rawOfTx ⟨"b", .expense, "Shopping", (3 : ℚ), "x", ⟨2024, 2, 3⟩⟩] =
      [] ++ (⟨"a", .income, "Salary", (5 : ℚ), "new", ⟨2024, 2, 2⟩⟩ :
          Transaction) ::
        [⟨"b", .expense, "Shopping", (3 : ℚ), "x", ⟨2024, 2, 3⟩⟩] ∧
      (∀ u ∈ ([⟨"b", .expense, "Shopping", (3 : ℚ), "x", ⟨2024, 2, 3⟩⟩] :
          List Transaction), u.id ≠ "a") ∧
      ("a" : String) ∈
        ([⟨"a", .expense, "Food", (1 : ℚ), "old", ⟨2024, 1, 10⟩⟩] :
          List Transaction).map (fun u => u.id)) ∧
    (addTransactions [⟨"a", .expense, "Food", (1 : ℚ), "old", ⟨2024, 1, 10⟩⟩]
        [rawOfTx ⟨"a", .income, "Salary", (5 : ℚ), "new", ⟨2024, 2, 2⟩⟩,
         rawOfTx ⟨"b", .expense, "Shopping", (3 : ℚ), "x", ⟨2024, 2, 3⟩⟩]
        (fun _ => "u")).filter (fun s => decide (s.id = "a")) =
      [⟨"a", .income, "Salary", (5 : ℚ), "new", ⟨2024, 2, 2⟩⟩] :=
  ⟨⟨by simp [sanitizeTxs, sanitizeTx, rawOfTx, ALL_CATEGORIES,
      EXPENSE_CATEGORIES, INCOME_CATEGORIES, defaultCategory],
    by decide, by decide⟩,
    claim10_id_collision_later_wins
      [⟨"a", .expense, "Food", (1 : ℚ), "old", ⟨2024, 1, 10⟩⟩]
      [rawOfTx ⟨"a", .income, "Salary", (5 : ℚ), "new", ⟨2024, 2, 2⟩⟩,
       rawOfTx ⟨"b", .expense, "Shopping", (3 : ℚ), "x", ⟨2024, 2, 3⟩⟩]
      (fun _ => "u")
      ⟨"a", .income, "Salary", (5 : ℚ), "new", ⟨2024, 2, 2⟩⟩
      []
      [⟨"b", .expense, "Shopping", (3 : ℚ), "x", ⟨2024, 2, 3⟩⟩]
      (by simp [sanitizeTxs, sanitizeTx, rawOfTx, ALL_CATEGORIES,
        EXPENSE_CATEGORIES, INCOME_CATEGORIES, defaultCategory])
      (by decide) (by decide)⟩

/-- C4 counterexample: a stored transaction with id "a" and empty
description is not restored verbatim by export followed by re-import — the
sanitizer replaces the empty description with "Imported Transaction", so the
field values per id are not identical to the exported list. -/
theorem claim4_counterexample_description_rewritten :
    addTransactions [⟨"a", .income, "Salary", (100 : ℚ), "", ⟨2024, 1, 15⟩⟩]
        (exportedJson [⟨"a", .income, "Salary", (100 : ℚ), "", ⟨2024, 1, 15⟩⟩])
        (fun _ => "u") =
      [⟨"a", .income, "Salary", (100 : ℚ), "Imported Transaction",
        ⟨2024, 1, 15⟩⟩] ∧
    ("Imported Transaction" : String) ≠ "" := by
  constructor
  · simp [addTransactions, exportedJson, rawOfTx, sanitizeTxs, sanitizeTx,
      dedupBy, upsertBy, sortByDateDesc, List.mergeSort, ALL_CATEGORIES,
      EXPENSE_CATEGORIES, INCOME_CATEGORIES, defaultCategory, YMD.leB,
      YMD.ltB, List.foldl]
  · decide

/-- C4 amended: for every non-empty transaction list with pairwise-distinct,
non-empty ids, non-empty descriptions and valid categories (all of which
hold of every list the application itself builds), exporting to JSON and
re-importing the produced backup yields a repository that is a permutation
of the exported list — the same set of ids with identical field values per
id.  Without these well-formedness conditions the round trip can rewrite
fields (see the counterexample, where an empty description is replaced). -/
theorem claim4_amended_roundtrip (l : List Transaction) (fresh : Nat → String)
    (_hne : l ≠ []) (hnd : (l.map (fun t => t.id)).Nodup)
    (hwf : ∀ t ∈ l, t.id ≠ "" ∧ t.description ≠ "" ∧
      t.category ∈ ALL_CATEGORIES) :
    (addTransactions l (exportedJson l) fresh).Perm l := by
  unfold addTransactions exportedJson
  rw [sanitizeTxs_exported fresh l 0 hwf,
    dedupBy_self_append (fun t => t.id) l hnd]
  unfold sortByDateDesc
  exact List.mergeSort_perm l _

theorem claim4_amended_roundtrip_witness :
    (([⟨"a", .income, "Salary", (100 : ℚ), "Pay", ⟨2024, 1, 15⟩⟩] :
        List Transaction) ≠ [] ∧
      (([⟨"a", .income, "Salary", (100 : ℚ), "Pay", ⟨2024, 1, 15⟩⟩] :
        List Transaction).map (fun t => t.id)).Nodup ∧
      (∀ t ∈ ([⟨"a", .income, "Salary", (100 : ℚ), "Pay", ⟨2024, 1, 15⟩⟩] :
        List Transaction), t.id ≠ "" ∧ t.description ≠ "" ∧
        t.category ∈ ALL_CATEGORIES)) ∧
    (addTransactions [⟨"a", .income, "Salary", (100 : ℚ), "Pay", ⟨2024, 1, 15⟩⟩]
      (exportedJson [⟨"a", .income, "Salary", (100 : ℚ), "Pay", ⟨2024, 1, 15⟩⟩])
      (fun _ => "u")).Perm
      [⟨"a", .income, "Salary", (100 : ℚ), "Pay", ⟨2024, 1, 15⟩⟩] :=
  ⟨⟨by simp, by decide, by decide⟩,
    claim4_amended_roundtrip _ _ (by simp) (by decide) (by decide)⟩

theorem assocGetD_bumpAssoc {κ : Type} [DecidableEq κ] (acc : List (κ × ℚ))
    (k : κ) (a : ℚ) (k2 : κ) :
    assocGetD (bumpAssoc acc k a) k2 =
      assocGetD acc k2 + (if k2 = k then a else 0) := by
  induction acc with
  | nil =>
    simp only [bumpAssoc, assocGetD]
    by_cases h : k = k2
    · rw [if_pos h, if_pos h.symm, zero_add]
    · rw [if_neg h, if_neg (fun hh => h hh.symm), add_zero]
  | cons p rest ih =>
    obtain ⟨k0, v⟩ := p
    by_cases h0 : k0 = k
    · simp only [bumpAssoc, if_pos h0, assocGetD]
      by_cases h2 : k0 = k2
      · rw [if_pos h2, if_pos h2, if_pos (by rw [← h2, h0])]
      · rw [if_neg h2, if_neg h2,
          if_neg (fun hh => h2 (by rw [h0, ← hh])), add_zero]
    · simp only [bumpAssoc, if_neg h0, assocGetD]
      by_cases h2 : k0 = k2
      · rw [if_pos h2, if_pos h2,
          if_neg (fun hh => h0 (by rw [h2, hh])), add_zero]
      · rw [if_neg h2, if_neg h2, ih]

theorem assocGetD_foldl_bump {κ : Type} [DecidableEq κ] (keyf : Transaction → κ) :
    ∀ (l : List Transaction) (acc : List (κ × ℚ)) (k : κ),
      assocGetD (l.foldl (fun acc t => bumpAssoc acc (keyf t) t.amount) acc) k =
        assocGetD acc k +
          ((l.filter (fun t => decide (keyf t = k))).map (fun t => t.amount)).sum := by
  intro l
  induction l with
  | nil => simp
  | cons t rest ih =>
    intro acc k
    rw [List.foldl_cons, ih, assocGetD_bumpAssoc, List.filter_cons]
    by_cases h : keyf t = k
    · rw [if_pos h.symm, decide_eq_true h, if_pos rfl, List.map_cons,
        List.sum_cons]
      ring
    · rw [if_neg (fun hh => h hh.symm), decide_eq_false h]
      simp only [Bool.false_eq_true, if_false]
      ring

theorem sum_snd_bumpAssoc {κ : Type} [DecidableEq κ] (acc : List (κ × ℚ))
    (k : κ) (a : ℚ) :
    ((bumpAssoc acc k a).map (fun e => e.2)).sum =
      (acc.map (fun e => e.2)).sum + a := by
  induction acc with
  | nil => simp [bumpAssoc]
  | cons p rest ih =>
    obtain ⟨k0, v⟩ := p
    by_cases h : k0 = k
    · simp only [bumpAssoc, if_pos h, List.map_cons, List.sum_cons]
      ring
    · simp only [bumpAssoc, if_neg h, List.map_cons, List.sum_cons, ih]
      ring

theorem sum_snd_foldl_bump {κ : Type} [DecidableEq κ] (keyf : Transaction → κ) :
    ∀ (l : List Transaction) (acc : List (κ × ℚ)),
      (((l.foldl (fun acc t => bumpAssoc acc (keyf t) t.amount) acc)).map
        (fun e => e.2)).sum =
        (acc.map (fun e => e.2)).sum + (l.map (fun t => t.amount)).sum := by
  intro l
  induction l with
  | nil => simp
  | cons t rest ih =>
    intro acc
    rw [List.foldl_cons, ih, sum_snd_bumpAssoc, List.map_cons, List.sum_cons]
    ring

theorem foldl_add_amount_eq_sum (l : List Transaction) (b : ℚ) :
    l.foldl (fun s t => s + t.amount) b = b + (l.map (fun t => t.amount)).sum := by
  induction l generalizing b with
  | nil => simp
  | cons t rest ih =>
    rw [List.foldl_cons, ih, List.map_cons, List.sum_cons]
    ring

theorem totalExpense_eq_sum (transactions : List Transaction) :
    totalExpense transactions =
      ((expensesOf transactions).map (fun t => t.amount)).sum := by
  unfold totalExpense
  rw [foldl_add_amount_eq_sum, zero_add]

theorem sum_snd_expenseByCategory (transactions : List Transaction) :
    ((expenseByCategory transactions).map (fun e => e.2)).sum =
      totalExpense transactions := by
  unfold expenseByCategory
  rw [sum_snd_foldl_bump (fun t => t.category) (expensesOf transactions) []]
  rw [totalExpense_eq_sum]
  simp

theorem sum_map_snd_mul {κ : Type} (l : List (κ × ℚ)) (c : ℚ) :
    (l.map (fun e => e.2 * c)).sum = (l.map (fun e => e.2)).sum * c := by
  induction l with
  | nil => simp
  | cons p rest ih =>
    rw [List.map_cons, List.sum_cons, List.map_cons, List.sum_cons, ih]
    ring

/-- C7 counterexample: a reference month whose transaction list has no
expense transactions yields an empty daily series, not a flat zero series
with one entry per calendar day (March 2024 has 31 days). -/
theorem claim7_counterexample_zero_expense_series_empty :
    lineChartData [⟨"i1", .income, "Salary", (7 : ℚ), "Pay", ⟨2024, 3, 5⟩⟩]
      2024 2 = [] ∧
    daysInMonth 2024 2 = 31 := by
  constructor
  · simp [lineChartData, expensesOf]
  · decide

/-- C7 amended: whenever the reference month's transaction list contains at
least one expense transaction, `lineChartData` has exactly one entry per
calendar day of the month, whose amount is the summed expense amount of that
day (zero for days with no activity); with no expense transactions the
series is empty rather than a flat zero series (see the counterexample). -/
theorem claim7_amended_daily_series (transactions : List Transaction)
    (year month0 : Nat) (h : expensesOf transactions ≠ []) :
    lineChartData transactions year month0 =
      (List.range (daysInMonth year month0)).map
        (fun i => ⟨i + 1, daySum transactions (i + 1)⟩) := by
  unfold lineChartData
  simp only []
  rw [if_neg (by simpa [List.isEmpty_iff] using h)]
  apply List.map_congr_left
  intro i _
  have hsum : assocGetD (expensesByDay (expensesOf transactions)) (i + 1) =
      daySum transactions (i + 1) := by
    unfold expensesByDay daySum
    rw [assocGetD_foldl_bump (fun t => t.date.day) (expensesOf transactions)
      [] (i + 1)]
    simp [assocGetD]
  rw [hsum]

theorem claim7_amended_daily_series_witness :
    expensesOf
      [⟨"e1", .expense, "Food", (50 : ℚ), "a", ⟨2023, 2, 1⟩⟩,
       ⟨"e2", .expense, "Food", (30 : ℚ), "b", ⟨2023, 2, 1⟩⟩] ≠ [] ∧
    lineChartData
      [⟨"e1", .expense, "Food", (50 : ℚ), "a", ⟨2023, 2, 1⟩⟩,
       ⟨"e2", .expense, "Food", (30 : ℚ), "b", ⟨2023, 2, 1⟩⟩] 2023 1 =
      (List.range (daysInMonth 2023 1)).map
        (fun i => ⟨i + 1,
          daySum
            [⟨"e1", .expense, "Food", (50 : ℚ), "a", ⟨2023, 2, 1⟩⟩,
             ⟨"e2", .expense, "Food", (30 : ℚ), "b", ⟨2023, 2, 1⟩⟩]
            (i + 1)⟩) :=
  ⟨by simp [expensesOf], claim7_amended_daily_series _ 2023 1
    (by simp [expensesOf])⟩

/-- C8: whenever the total expense of the monthly transactions is strictly
positive, the `percent` fields of `pieChartData` sum to exactly 100 (in
exact rational arithmetic), and the entries are sorted descending by summed
amount. -/
theorem claim8_breakdown_percentages (transactions : List Transaction)
    (hpos : 0 < totalExpense transactions) :
    ((pieChartData transactions).map (fun e => e.percent)).sum = 100 ∧
    (pieChartData transactions).Sorted (fun a b => b.value ≤ a.value) := by
  unfold pieChartData
  rw [if_pos hpos]
  constructor
  · have hperm := (List.mergeSort_perm
      ((expenseByCategory transactions).map (fun e =>
        PieEntry.mk e.1 e.2 (e.2 / totalExpense transactions * 100)))
      (fun a b => decide (b.value ≤ a.value))).map (fun e => e.percent)
    rw [hperm.sum_eq, List.map_map]
    have hcomp : ((fun e => e.percent) ∘ (fun e : String × ℚ =>
        PieEntry.mk e.1 e.2 (e.2 / totalExpense transactions * 100))) =
        (fun e : String × ℚ => e.2 * (100 / totalExpense transactions)) := by
      funext e
      show e.2 / totalExpense transactions * 100 = _
      ring
    rw [hcomp, sum_map_snd_mul, sum_snd_expenseByCategory, mul_comm,
      div_mul_cancel₀]
    exact ne_of_gt hpos
  · have hs := @List.sorted_mergeSort PieEntry
      (fun a b => decide (b.value ≤ a.value))
      (fun a b c hab hbc => by
        simp only [decide_eq_true_eq] at *
        exact le_trans hbc hab)
      (fun a b => by
        simp only [Bool.or_eq_true, decide_eq_true_eq]
        exact le_total b.value a.value)
      ((expenseByCategory transactions).map (fun e =>
        PieEntry.mk e.1 e.2 (e.2 / totalExpense transactions * 100)))
    exact hs.imp (fun h => of_decide_eq_true h)

theorem claim8_breakdown_percentages_witness :
    0 < totalExpense
      [⟨"e1", .expense, "Food", (50 : ℚ), "a", ⟨2024, 1, 1⟩⟩,
       ⟨"e2", .expense, "Transportation", (30 : ℚ), "b", ⟨2024, 1, 2⟩⟩] ∧
    (((pieChartData
        [⟨"e1", .expense, "Food", (50 : ℚ), "a", ⟨2024, 1, 1⟩⟩,
         ⟨"e2", .expense, "Transportation", (30 : ℚ), "b", ⟨2024, 1, 2⟩⟩]).map
      (fun e => e.percent)).sum = 100 ∧
      (pieChartData
        [⟨"e1", .expense, "Food", (50 : ℚ), "a", ⟨2024, 1, 1⟩⟩,
         ⟨"e2", .expense, "Transportation", (30 : ℚ), "b", ⟨2024, 1, 2⟩⟩]).Sorted
        (fun a b => b.value ≤ a.value)) := by
  have hpos : 0 < totalExpense
      [⟨"e1", .expense, "Food", (50 : ℚ), "a", ⟨2024, 1, 1⟩⟩,
       ⟨"e2", .expense, "Transportation", (30 : ℚ), "b", ⟨2024, 1, 2⟩⟩] := by
    norm_num [totalExpense, expensesOf, List.filter, List.foldl]
  exact ⟨hpos, claim8_breakdown_percentages _ hpos⟩

/-- C9: when the uploaded file's content is malformed JSON, or parses to a
top-level value that is neither an array nor an object bearing a
`transactions` or `plannedExpenses` field, the import aborts with the
failure alert and both collections are unchanged; and on every input, good
or bad, the file input is reset. -/
theorem claim9_parse_error_atomic_and_input_reset :
    (∀ (freshT freshP : Nat → String) (st : AppState)
        (data : Option ParsedJson), badShape data →
        handleParsedFile freshT freshP st data = ⟨st, .importFailed, true⟩) ∧
    (∀ (freshT freshP : Nat → String) (st : AppState)
        (data : Option ParsedJson),
        (handleParsedFile freshT freshP st data).inputReset = true) := by
  constructor
  · rintro freshT freshP st data (rfl | rfl | rfl)
    · rfl
    · rfl
    · rfl
  · intro freshT freshP st data
    cases data with
    | none => rfl
    | some d =>
      cases d with
      | arr txs => rfl
      | other => rfl
      | obj ft fp =>
        show (if ft.isPresent || fp.isPresent then
            importBatches freshT freshP st ft.arr fp.arr
          else ⟨st, .importFailed, true⟩).inputReset = true
        split
        · rfl
        · rfl

theorem claim9_parse_error_atomic_and_input_reset_witness :
    badShape (none : Option ParsedJson) ∧
    handleParsedFile (fun _ => "u") (fun _ => "v") ⟨[], []⟩ none =
      ⟨⟨[], []⟩, .importFailed, true⟩ ∧
    (handleParsedFile (fun _ => "u") (fun _ => "v") ⟨[], []⟩
      (some (.arr []))).inputReset = true :=
  ⟨Or.inl rfl,
    claim9_parse_error_atomic_and_input_reset.1 _ _ ⟨[], []⟩ none (Or.inl rfl),
    claim9_parse_error_atomic_and_input_reset.2 _ _ ⟨[], []⟩ (some (.arr []))⟩
